import Mathlib

/-!
Verification of the core algorithm of `src/smooth-path.c` (Smooth Path GIMP
plug-in): corner-angle classification (`angle_between`), the fixed-coefficient
tridiagonal solver (`triagonal_solve`), and the control-point recomputation
(`set_bezier_path`).

The C code works on flat `gdouble` arrays; we embed it with `List` values over
a linear ordered field (instantiated at `ℚ` for exact-arithmetic statements and
at `ℝ` where the trigonometric corner classifier is involved).  Each definition
mirrors the corresponding C function; comments cite the line structure.
-/

namespace SmoothPath

section Solver

variable {K : Type*} [LinearOrderedField K]

/-- Forward-elimination / back-substitution core of `triagonal_solve`
(smooth-path.c lines 122-146).  The C loop keeps running state
`asc[i-1]` (`cprev`) and `asd[i-1]` (`dprev`); step `i` computes
`id = 4 - asc[i-1]`, `asc[i] = 1 / id`, `asd[i] = (asd[i] - asd[i-1]) / id`,
and the back-substitution is `asb[i] = asd[i] - asc[i] * asb[i+1]` with
`asb[len-1] = asd[len-1]` (encoded by `headD 0`: one past the end the
back-substituted tail contributes nothing). -/
def tri_solve_aux (cprev dprev : K) : List K → List K
  | [] => []
  | di :: rest =>
      let idv := 4 - cprev
      let ci := 1 / idv
      let ddi := (di - dprev) / idv
      let tail := tri_solve_aux ci ddi rest
      (ddi - ci * tail.headD 0) :: tail

/-- `triagonal_solve` (smooth-path.c lines 122-146).  The first row's special
seeding `asc[0] *= 0.25; asd[0] *= 0.25` is exactly the generic step with
previous state `(0, 0)`, since `1/(4-0) = 0.25` and `(d - 0)/(4-0) = d * 0.25`.
The result list is what the C code leaves in `asb`. -/
def triagonal_solve (asd : List K) : List K := tri_solve_aux 0 0 asd

/-- Rows `1..` of the matrix-vector product `A · x` for the tridiagonal matrix
with `4` on the diagonal and `1` on both off-diagonals: row `i` is
`x[i-1] + 4*x[i] + x[i+1]`, where `prev` is the entry to the left and a
missing right neighbour contributes `0`. -/
def tri_apply_aux (prev : K) : List K → List K
  | [] => []
  | a :: rest => (prev + 4 * a + rest.headD 0) :: tri_apply_aux a rest

/-- Matrix-vector product `A · x` where `A` is the tridiagonal matrix with `4`
on the main diagonal and `1` on the two adjacent off-diagonals (the fixed
matrix of the natural-cubic-spline system solved by `triagonal_solve`). -/
def tri_apply : List K → List K
  | [] => []
  | a :: rest => (4 * a + rest.headD 0) :: tri_apply_aux a rest

/-- Right-hand-side construction for one axis (smooth-path.c lines 218-225 /
249-256): `asd[0] = 6*ac[1] - ac[0]`, `asd[n] = 6*ac[n+1]` for the middle
indices, and `asd[k-1] = 6*ac[m-2] - ac[m-1]`, where `m = ac.length` and
`k = m - 2` is the number of interior anchors. -/
def spline_rhs (ac : List K) : List K :=
  (List.range (ac.length - 2)).map fun n =>
    if n = 0 then 6 * ac.getD 1 0 - ac.getD 0 0
    else if n = ac.length - 3 then
      6 * ac.getD (ac.length - 2) 0 - ac.getD (ac.length - 1) 0
    else 6 * ac.getD (n + 1) 0

/-- Fitted spline-node values `asb` for one axis (smooth-path.c lines 210-229 /
241-260): the single-interior-anchor case uses the closed form
`1.50*ac[1] - 0.25*ac[0] - 0.25*ac[2]`, otherwise the tridiagonal solve of
`spline_rhs`; then `ac[0]` is prepended and `ac[m-1]` appended. -/
def spline_b (ac : List K) : List K :=
  (ac.getD 0 0 ::
      (if ac.length - 2 = 1 then
        [3 / 2 * ac.getD 1 0 - 1 / 4 * ac.getD 0 0 - 1 / 4 * ac.getD 2 0]
      else triagonal_solve (spline_rhs ac))) ++
    [ac.getD (ac.length - 1) 0]

/-- First interior Bezier control values per segment (smooth-path.c lines
232-235 / 263-266): entry `n-1` is `2*asb[n-1]/3 + asb[n]/3`. -/
def spline_con1 (b : List K) : List K :=
  (List.range (b.length - 1)).map fun n => 2 * b.getD n 0 / 3 + b.getD (n + 1) 0 / 3

/-- Second interior Bezier control values per segment (smooth-path.c lines
236-238 / 267-269): entry `n-1` is `asb[n-1]/3 + 2*asb[n]/3`. -/
def spline_con2 (b : List K) : List K :=
  (List.range (b.length - 1)).map fun n => b.getD n 0 / 3 + 2 * b.getD (n + 1) 0 / 3

/-- Closed-curve trimming of the four control arrays (smooth-path.c lines
272-282): remove the last entry, then the first. -/
def trim (closed : Bool) (l : List K) : List K :=
  if closed then l.dropLast.tail else l

/-- Anchor x-positions extracted from the flat control-point array
(smooth-path.c lines 192-198): entry `n` is `ctlpts[n*6+2]`. -/
def anchors_x (ct : List K) : List K :=
  (List.range (ct.length / 6)).map fun n => ct.getD (n * 6 + 2) 0

/-- Anchor y-positions extracted from the flat control-point array
(smooth-path.c lines 192-198): entry `n` is `ctlpts[n*6+3]`. -/
def anchors_y (ct : List K) : List K :=
  (List.range (ct.length / 6)).map fun n => ct.getD (n * 6 + 3) 0

/-- Axis value sequence handed to the spline fit, x-axis (smooth-path.c lines
200-208): for a closed stroke the last anchor's x is prepended and the first
two anchors' x appended. -/
def acx_list (ct : List K) (closed : Bool) : List K :=
  if closed then
    ct.getD (ct.length - 4) 0 :: (anchors_x ct ++ [ct.getD 2 0, ct.getD 8 0])
  else anchors_x ct

/-- Axis value sequence handed to the spline fit, y-axis (smooth-path.c lines
200-208). -/
def acy_list (ct : List K) (closed : Bool) : List K :=
  if closed then
    ct.getD (ct.length - 3) 0 :: (anchors_y ct ++ [ct.getD 3 0, ct.getD 9 0])
  else anchors_y ct

/-- Anchor axis values lying on a line with uniform spacing:
`a[i] = x0 + i * dx`. -/
def linList (m : ℕ) (x0 dx : K) : List K :=
  (List.range m).map fun i : ℕ => x0 + (i : K) * dx

end Solver

/-- The plug-in settings (`SmoothVals`, smooth-path.c lines 47-59):
`smooth_specified` restricts smoothing to corners passing the angle test,
bounded by `ang_min` and `ang_max` in degrees. -/
structure SmoothVals where
  smooth_specified : Bool
  ang_min : ℝ
  ang_max : ℝ

/-- Degree conversion `rad_to_deg` (smooth-path.c line 26). -/
noncomputable def rad_to_deg (x : ℝ) : ℝ := x * 360 / (2 * Real.pi)

/-- The C library `atan2(y, x)`, with the `atan2(0,0) = 0` convention. -/
noncomputable def atan2 (y x : ℝ) : ℝ :=
  if 0 < x then Real.arctan (y / x)
  else if x < 0 then
    if 0 ≤ y then Real.arctan (y / x) + Real.pi else Real.arctan (y / x) - Real.pi
  else if 0 < y then Real.pi / 2
  else if y < 0 then -(Real.pi / 2)
  else 0

/-- The corner measure `ret` computed by `angle_between` (smooth-path.c lines
107-111): `180 - |deg(atan2(-v1y*v2x + v1x*v2y, v1x*v2x + v1y*v2y))|` for
`v1 = vb - va`, `v2 = vc - vb` (180 = straight, 0 = fully reversed). -/
noncomputable def corner_ret (vax vay vbx vby vcx vcy : ℝ) : ℝ :=
  180 - |rad_to_deg (atan2 (-(vby - vay) * (vcx - vbx) + (vbx - vax) * (vcy - vby))
      ((vbx - vax) * (vcx - vbx) + (vby - vay) * (vcy - vby)))|

/-- `angle_between` (smooth-path.c lines 101-116).  When `smooth_specified`
is off the C function returns `-1`, which every caller treats as a truthy
`gboolean`, hence `true` here.  Otherwise the AND rule applies when
`ang_max > ang_min` and the OR rule when not. -/
noncomputable def angle_between (s : SmoothVals) (vax vay vbx vby vcx vcy : ℝ) : Bool :=
  if s.smooth_specified = false then true
  else if s.ang_max > s.ang_min then
    decide (corner_ret vax vay vbx vby vcx vcy < s.ang_max ∧
      corner_ret vax vay vbx vby vcx vcy > s.ang_min)
  else
    decide (corner_ret vax vay vbx vby vcx vcy < s.ang_max ∨
      corner_ret vax vay vbx vby vcx vcy > s.ang_min)

/-- Update of `ctlpts[0..1]` for a closed stroke (smooth-path.c lines
286-292): the first anchor's incoming control becomes the last trimmed
`con2` value when the wrap corner at anchor 0 passes the angle test. -/
noncomputable def update_first (s : SmoothVals) (ct : List ℝ) (closed : Bool)
    (aconx2 acony2 : List ℝ) : List ℝ :=
  if closed && angle_between s (ct.getD (ct.length - 4) 0) (ct.getD (ct.length - 3) 0)
      (ct.getD 2 0) (ct.getD 3 0) (ct.getD 8 0) (ct.getD 9 0) then
    (ct.set 0 (aconx2.getD (aconx2.length - 1) 0)).set 1
      (acony2.getD (acony2.length - 1) 0)
  else ct

/-- First half of loop iteration `n` of the interior update loop
(smooth-path.c lines 295-313): conditionally writes `ctlpts[n*6+4..5]`
(anchor `n`'s outgoing control) with `aconx1[n] / acony1[n]`, gated on
`angle_between` at anchor `n` (wrap triple when `n = 0` and closed; no angle
test, only `!smooth_specified`, when `n = 0` and open). -/
noncomputable def update_stepA (s : SmoothVals) (closed : Bool)
    (aconx1 acony1 : List ℝ) (ct : List ℝ) (n : ℕ) : List ℝ :=
  if n = 0 then
    if closed && angle_between s (ct.getD (ct.length - 4) 0) (ct.getD (ct.length - 3) 0)
        (ct.getD 2 0) (ct.getD 3 0) (ct.getD 8 0) (ct.getD 9 0) then
      (ct.set (n * 6 + 4) (aconx1.getD n 0)).set (n * 6 + 5) (acony1.getD n 0)
    else if !closed && !s.smooth_specified then
      (ct.set (n * 6 + 4) (aconx1.getD n 0)).set (n * 6 + 5) (acony1.getD n 0)
    else ct
  else
    if angle_between s (ct.getD (n * 6 - 4) 0) (ct.getD (n * 6 - 3) 0)
        (ct.getD (n * 6 + 2) 0) (ct.getD (n * 6 + 3) 0)
        (ct.getD (n * 6 + 8) 0) (ct.getD (n * 6 + 9) 0) then
      (ct.set (n * 6 + 4) (aconx1.getD n 0)).set (n * 6 + 5) (acony1.getD n 0)
    else ct

/-- Second half of loop iteration `n` of the interior update loop
(smooth-path.c lines 314-333): conditionally writes `ctlpts[n*6+6..7]`
(anchor `n+1`'s incoming control) with `aconx2[n] / acony2[n]`, gated on
`angle_between` at anchor `n+1` (wrap triple when `n = len - 2` and closed;
no angle test, only `!smooth_specified`, when `n = len - 2` and open). -/
noncomputable def update_stepB (s : SmoothVals) (closed : Bool) (len : ℕ)
    (aconx2 acony2 : List ℝ) (ct : List ℝ) (n : ℕ) : List ℝ :=
  if n = len - 2 then
    if closed && angle_between s (ct.getD (ct.length - 10) 0) (ct.getD (ct.length - 9) 0)
        (ct.getD (ct.length - 4) 0) (ct.getD (ct.length - 3) 0)
        (ct.getD 2 0) (ct.getD 3 0) then
      (ct.set (n * 6 + 6) (aconx2.getD n 0)).set (n * 6 + 7) (acony2.getD n 0)
    else if !closed && !s.smooth_specified then
      (ct.set (n * 6 + 6) (aconx2.getD n 0)).set (n * 6 + 7) (acony2.getD n 0)
    else ct
  else
    if angle_between s (ct.getD (n * 6 + 2) 0) (ct.getD (n * 6 + 3) 0)
        (ct.getD (n * 6 + 8) 0) (ct.getD (n * 6 + 9) 0)
        (ct.getD (n * 6 + 14) 0) (ct.getD (n * 6 + 15) 0) then
      (ct.set (n * 6 + 6) (aconx2.getD n 0)).set (n * 6 + 7) (acony2.getD n 0)
    else ct

/-- One iteration `n` of the interior update loop (smooth-path.c lines
294-334): the second half runs on the array as left by the first half,
exactly as the C body mutates `ctlpts` in place. -/
noncomputable def update_step (s : SmoothVals) (closed : Bool) (len : ℕ)
    (aconx1 acony1 aconx2 acony2 : List ℝ) (ct : List ℝ) (n : ℕ) : List ℝ :=
  update_stepB s closed len aconx2 acony2 (update_stepA s closed aconx1 acony1 ct n) n

/-- Update of the last two entries for a closed stroke (smooth-path.c lines
336-345): the last anchor's outgoing control becomes the last trimmed `con1`
value when the wrap corner at the last anchor passes the angle test. -/
noncomputable def update_last (s : SmoothVals) (ct : List ℝ) (closed : Bool)
    (aconx1 acony1 : List ℝ) : List ℝ :=
  if closed && angle_between s (ct.getD (ct.length - 10) 0) (ct.getD (ct.length - 9) 0)
      (ct.getD (ct.length - 4) 0) (ct.getD (ct.length - 3) 0)
      (ct.getD 2 0) (ct.getD 3 0) then
    (ct.set (ct.length - 2) (aconx1.getD (aconx1.length - 1) 0)).set (ct.length - 1)
      (acony1.getD (acony1.length - 1) 0)
  else ct

/-- The whole control-point recomputation performed by `set_bezier_path` once
the `num_points >= 18` guard has passed (smooth-path.c lines 181-345):
per-axis spline fit, closed-curve padding and trimming, then the three update
phases over the flat control-point array. -/
noncomputable def smooth_core (s : SmoothVals) (ct : List ℝ) (closed : Bool) : List ℝ :=
  update_last s
    ((List.range (ct.length / 6 - 1)).foldl
      (update_step s closed (ct.length / 6)
        (trim closed (spline_con1 (spline_b (acx_list ct closed))))
        (trim closed (spline_con1 (spline_b (acy_list ct closed))))
        (trim closed (spline_con2 (spline_b (acx_list ct closed))))
        (trim closed (spline_con2 (spline_b (acy_list ct closed)))))
      (update_first s ct closed
        (trim closed (spline_con2 (spline_b (acx_list ct closed))))
        (trim closed (spline_con2 (spline_b (acy_list ct closed))))))
    closed
    (trim closed (spline_con1 (spline_b (acx_list ct closed))))
    (trim closed (spline_con1 (spline_b (acy_list ct closed))))

/-- `set_bezier_path` (smooth-path.c lines 155-361) as a function from the
flat control-point array and closed flag of one stroke to the data of the
newly created stroke: strokes with fewer than 18 scalars (3 anchors) pass
through unchanged, otherwise the recomputed control points are used.  The
settings are the process-wide `svals`. -/
noncomputable def set_bezier_path (s : SmoothVals) (ctlpts : List ℝ) (closed : Bool) :
    List ℝ × Bool :=
  if ctlpts.length < 18 then (ctlpts, closed)
  else (smooth_core s ctlpts closed, closed)

/-- Fixture: an open 3-anchor stroke whose anchor positions lie on the line
`y = 5x` with anchors at x = 0, 1, 2 (control points arbitrary). -/
def linWitnessCt : List ℝ :=
  [9, 9, 0, 0, 9, 9, 9, 9, 1, 5, 9, 9, 9, 9, 2, 10, 9, 9]

/-- Fixture: a closed 3-anchor stroke (right triangle `(0,0), (12,0), (0,12)`,
each control point initially at its anchor). -/
def cexCt : List ℝ :=
  [0, 0, 0, 0, 0, 0, 12, 0, 12, 0, 12, 0, 0, 12, 0, 12, 0, 12]

/-- The same stroke with its anchor list rotated by one position. -/
def cexRot : List ℝ := cexCt.drop 6 ++ cexCt.take 6

section Solver

variable {K : Type*} [LinearOrderedField K]

lemma tri_apply_eq_aux_zero (l : List K) : tri_apply l = tri_apply_aux 0 l := by
  cases l with
  | nil => rfl
  | cons a rest => simp [tri_apply, tri_apply_aux, zero_add]

lemma pivot_pos {c : K} (h0 : 0 ≤ c) (h1 : c ≤ 1 / 2) : (0 : K) < 4 - c := by
  nlinarith

lemma pivot_inv_nonneg {c : K} (h0 : 0 ≤ c) (h1 : c ≤ 1 / 2) :
    0 ≤ 1 / (4 - c) := by
  have := pivot_pos h0 h1
  positivity

lemma pivot_inv_le {c : K} (h0 : 0 ≤ c) (h1 : c ≤ 1 / 2) :
    1 / (4 - c) ≤ 1 / 2 := by
  have hp := pivot_pos h0 h1
  rw [div_le_div_iff₀ hp (by norm_num : (0 : K) < 2)]
  nlinarith

/-- Main invariant of the Thomas elimination: applying the rows of `A` (with
the correct left-neighbour seed) to the solved suffix reproduces the
right-hand-side suffix. -/
lemma tri_solve_aux_spec :
    ∀ (ds : List K) (cprev dprev : K), 0 ≤ cprev → cprev ≤ 1 / 2 →
      tri_apply_aux (dprev - cprev * (tri_solve_aux cprev dprev ds).headD 0)
        (tri_solve_aux cprev dprev ds) = ds := by
  intro ds
  induction ds with
  | nil => intro cprev dprev _ _; simp [tri_solve_aux, tri_apply_aux]
  | cons di rest ih =>
    intro cprev dprev h0 h1
    have hp : (0 : K) < 4 - cprev := pivot_pos h0 h1
    have hne : (4 : K) - cprev ≠ 0 := ne_of_gt hp
    have hih := ih (1 / (4 - cprev)) ((di - dprev) / (4 - cprev))
      (pivot_inv_nonneg h0 h1) (pivot_inv_le h0 h1)
    simp only [tri_solve_aux, List.headD_cons, tri_apply_aux]
    rw [List.cons.injEq]
    refine ⟨?_, hih⟩
    field_simp
    ring

/-- C1: for every right-hand side `rhs` of length at least 2 (over exact
rational arithmetic), the output `x` of `triagonal_solve` satisfies
`A · x = rhs`, where `A` is the tridiagonal matrix with `4` on the main
diagonal and `1` on both adjacent off-diagonals. -/
theorem triagonal_solve_correct (rhs : List ℚ) (h : 2 ≤ rhs.length) :
    tri_apply (triagonal_solve rhs) = rhs := by
  have := tri_solve_aux_spec rhs (0 : ℚ) 0 le_rfl (by norm_num)
  simpa [triagonal_solve, tri_apply_eq_aux_zero] using this

/-- Concrete instance of `triagonal_solve_correct` at `rhs = [1, 2]`. -/
theorem triagonal_solve_correct_witness :
    2 ≤ ([1, 2] : List ℚ).length ∧
      tri_apply (triagonal_solve ([1, 2] : List ℚ)) = [1, 2] :=
  ⟨by decide, triagonal_solve_correct [1, 2] (by decide)⟩

lemma headD_eq_getD_zero (l : List K) : l.headD 0 = l.getD 0 0 := by
  cases l <;> rfl

lemma tri_apply_aux_length (prev : K) (xs : List K) :
    (tri_apply_aux prev xs).length = xs.length := by
  induction xs generalizing prev with
  | nil => rfl
  | cons a rest ih => simp [tri_apply_aux, ih]

lemma tri_apply_length (xs : List K) : (tri_apply xs).length = xs.length := by
  rw [tri_apply_eq_aux_zero, tri_apply_aux_length]

/-- The Thomas elimination is a left inverse of applying the matrix rows. -/
lemma tri_solve_aux_left_inv :
    ∀ (xs : List K) (xleft cprev : K), 0 ≤ cprev → cprev ≤ 1 / 2 →
      tri_solve_aux cprev (xleft + cprev * xs.headD 0) (tri_apply_aux xleft xs) = xs := by
  intro xs
  induction xs with
  | nil => intro xleft cprev _ _; simp [tri_apply_aux, tri_solve_aux]
  | cons x0 rest ih =>
    intro xleft cprev h0 h1
    have hp : (0 : K) < 4 - cprev := pivot_pos h0 h1
    have hne : (4 : K) - cprev ≠ 0 := ne_of_gt hp
    have hdd : (xleft + 4 * x0 + rest.headD 0 - (xleft + cprev * x0)) / (4 - cprev)
        = x0 + 1 / (4 - cprev) * rest.headD 0 := by
      field_simp
      ring
    simp only [tri_apply_aux, tri_solve_aux, List.headD_cons]
    rw [hdd, ih x0 (1 / (4 - cprev)) (pivot_inv_nonneg h0 h1) (pivot_inv_le h0 h1)]
    rw [List.cons.injEq]
    exact ⟨by ring, rfl⟩

lemma triagonal_solve_left_inverse (xs : List K) :
    triagonal_solve (tri_apply xs) = xs := by
  have h := tri_solve_aux_left_inv xs 0 0 le_rfl (by norm_num)
  simpa [triagonal_solve, tri_apply_eq_aux_zero] using h

lemma linList_length (m : ℕ) (x0 dx : K) : (linList m x0 dx).length = m := by
  simp [linList]

lemma linList_getD (x0 dx : K) {m j : ℕ} (hj : j < m) :
    (linList m x0 dx).getD j 0 = x0 + (j : K) * dx := by
  rw [List.getD_eq_getElem _ _ (by simpa [linList_length] using hj)]
  simp [linList]

lemma linList_zero (x0 dx : K) : linList 0 x0 dx = [] := rfl

lemma linList_succ (m : ℕ) (x0 dx : K) :
    linList (m + 1) x0 dx = x0 :: linList m (x0 + dx) dx := by
  simp only [linList, List.range_succ_eq_map, List.map_cons, List.map_map, Nat.cast_zero,
    zero_mul, add_zero, List.cons.injEq, true_and]
  apply List.map_congr_left
  intro i _
  simp only [Function.comp_apply]
  push_cast
  ring

lemma linList_concat (m : ℕ) (x0 dx : K) :
    linList (m + 1) x0 dx = linList m x0 dx ++ [x0 + (m : K) * dx] := by
  simp [linList, List.range_succ]

lemma getD_range_map (f : ℕ → K) (k i : ℕ) (hi : i < k) :
    ((List.range k).map f).getD i 0 = f i := by
  rw [List.getD_eq_getElem _ _ (by simpa using hi)]
  simp

lemma tri_apply_aux_getD :
    ∀ (xs : List K) (prev : K) (i : ℕ), i < xs.length →
      (tri_apply_aux prev xs).getD i 0 =
        (if i = 0 then prev else xs.getD (i - 1) 0) + 4 * xs.getD i 0 +
          xs.getD (i + 1) 0 := by
  intro xs
  induction xs with
  | nil => intro prev i hi; simp at hi
  | cons a rest ih =>
    intro prev i hi
    cases i with
    | zero =>
      cases rest <;> simp [tri_apply_aux]
    | succ i' =>
      have hi' : i' < rest.length := by simpa using hi
      simp only [tri_apply_aux, List.getD_cons_succ]
      rw [ih a i' hi']
      cases i' with
      | zero => simp
      | succ i'' => simp [List.getD_cons_succ]

lemma tri_apply_getD (xs : List K) (i : ℕ) (hi : i < xs.length) :
    (tri_apply xs).getD i 0 =
      (if i = 0 then 0 else xs.getD (i - 1) 0) + 4 * xs.getD i 0 + xs.getD (i + 1) 0 := by
  rw [tri_apply_eq_aux_zero]
  exact tri_apply_aux_getD xs 0 i hi

/-- On uniformly spaced collinear anchors, the right-hand side built by the
code is exactly the matrix `A` applied to the interior anchor values. -/
lemma spline_rhs_linList (j : ℕ) (x0 dx : K) :
    spline_rhs (linList (j + 4) x0 dx) = tri_apply (linList (j + 2) (x0 + dx) dx) := by
  have hlen : (linList (j + 4) x0 dx).length = j + 4 := linList_length _ _ _
  apply List.ext_getElem
  · simp [spline_rhs, hlen, tri_apply_length, linList_length]
  · intro i hi1 hi2
    have hi : i < j + 2 := by
      simpa [tri_apply_length, linList_length] using hi2
    rw [← List.getD_eq_getElem _ 0 hi1, ← List.getD_eq_getElem _ 0 hi2]
    simp only [spline_rhs, hlen]
    rw [getD_range_map _ _ i (by omega)]
    rw [tri_apply_getD _ i (by simpa [linList_length] using hi)]
    by_cases h0 : i = 0
    · subst h0
      rw [if_pos rfl, if_pos rfl]
      rw [linList_getD x0 dx (by omega), linList_getD x0 dx (by omega),
        linList_getD (x0 + dx) dx (by omega : 0 < j + 2),
        linList_getD (x0 + dx) dx (by omega : 1 < j + 2)]
      push_cast
      ring
    · by_cases h1 : i = j + 1
      · subst h1
        rw [if_neg h0, if_pos (by omega : j + 1 = j + 4 - 3), if_neg h0]
        rw [linList_getD x0 dx (by omega : j + 4 - 2 < j + 4),
          linList_getD x0 dx (by omega : j + 4 - 1 < j + 4),
          linList_getD (x0 + dx) dx (by omega : j + 1 - 1 < j + 2),
          linList_getD (x0 + dx) dx (by omega : j + 1 < j + 2),
          List.getD_eq_default _ _ (by simp [linList_length])]
        have e2 : j + 4 - 2 = j + 2 := by omega
        have e1 : j + 4 - 1 = j + 3 := by omega
        have e0 : j + 1 - 1 = j := by omega
        rw [e2, e1, e0]
        push_cast
        ring
      · obtain ⟨i', rfl⟩ : ∃ i', i = i' + 1 := ⟨i - 1, by omega⟩
        rw [if_neg h0, if_neg (by omega : ¬ i' + 1 = j + 4 - 3), if_neg h0]
        rw [linList_getD x0 dx (by omega : i' + 1 + 1 < j + 4),
          linList_getD (x0 + dx) dx (by omega : i' + 1 - 1 < j + 2),
          linList_getD (x0 + dx) dx (by omega : i' + 1 < j + 2),
          linList_getD (x0 + dx) dx (by omega : i' + 1 + 1 < j + 2)]
        have e0 : i' + 1 - 1 = i' := by omega
        rw [e0]
        push_cast
        ring

/-- The natural-spline fit of uniformly spaced collinear anchors returns the
anchors themselves: a straight line is a degenerate cubic. -/
lemma spline_b_linList (m : ℕ) (hm : 3 ≤ m) (x0 dx : K) :
    spline_b (linList m x0 dx) = linList m x0 dx := by
  rcases eq_or_lt_of_le hm with h3 | h4
  · have hm3 : m = 3 := h3.symm
    subst hm3
    simp only [spline_b, linList_length, if_true]
    rw [linList_getD x0 dx (by omega : 0 < 3), linList_getD x0 dx (by omega : 1 < 3),
      linList_getD x0 dx (by omega : 2 < 3)]
    rw [show (3 : ℕ) = 2 + 1 from rfl, linList_succ, show (2 : ℕ) = 1 + 1 from rfl,
      linList_succ, show (1 : ℕ) = 0 + 1 from rfl, linList_succ, linList_zero]
    simp only [List.cons_append, List.nil_append, List.cons.injEq, and_true]
    refine ⟨by push_cast; ring, by push_cast; ring, by push_cast; ring⟩
  · obtain ⟨j, rfl⟩ : ∃ j, m = j + 4 := ⟨m - 4, by omega⟩
    simp only [spline_b, linList_length]
    rw [spline_rhs_linList, triagonal_solve_left_inverse]
    rw [linList_getD x0 dx (by omega : 0 < j + 4),
      linList_getD x0 dx (by omega : j + 4 - 1 < j + 4)]
    rw [show j + 4 - 1 = j + 3 by omega]
    rw [show j + 4 = j + 3 + 1 by omega, linList_succ,
      show j + 3 = j + 2 + 1 by omega, linList_concat]
    simp only [List.cons_append, List.cons.injEq]
    constructor
    · push_cast; ring
    · congr 1
      rw [List.cons.injEq]
      refine ⟨by push_cast; ring, rfl⟩

lemma spline_con1_linList (m : ℕ) (x0 dx : K) :
    spline_con1 (linList m x0 dx) =
      (List.range (m - 1)).map fun n : ℕ => x0 + (n : K) * dx + dx / 3 := by
  unfold spline_con1
  rw [linList_length]
  apply List.map_congr_left
  intro n hn
  have hn' : n < m - 1 := List.mem_range.mp hn
  rw [linList_getD x0 dx (by omega), linList_getD x0 dx (by omega)]
  push_cast
  ring

lemma spline_con2_linList (m : ℕ) (x0 dx : K) :
    spline_con2 (linList m x0 dx) =
      (List.range (m - 1)).map fun n : ℕ => x0 + (n : K) * dx + 2 * dx / 3 := by
  unfold spline_con2
  rw [linList_length]
  apply List.map_congr_left
  intro n hn
  have hn' : n < m - 1 := List.mem_range.mp hn
  rw [linList_getD x0 dx (by omega), linList_getD x0 dx (by omega)]
  push_cast
  ring

end Solver

/-- C7: for an open stroke whose anchor positions lie exactly on a line with
uniform spacing (per axis `a[i] = a[0] + i*d`, at least 3 anchors), every
computed `con1` value equals the exact one-third interpolation point
`a[n-1] + d/3` of its segment and every `con2` value equals `a[n-1] + 2*d/3`,
exactly under exact arithmetic. -/
theorem spline_linear_exact (ct : List ℝ) (m : ℕ) (x0 dx y0 dy : ℝ) (hm : 3 ≤ m)
    (hx : anchors_x ct = linList m x0 dx) (hy : anchors_y ct = linList m y0 dy) :
    spline_con1 (spline_b (acx_list ct false)) =
        (List.range (m - 1)).map (fun n : ℕ => x0 + (n : ℝ) * dx + dx / 3) ∧
      spline_con2 (spline_b (acx_list ct false)) =
        (List.range (m - 1)).map (fun n : ℕ => x0 + (n : ℝ) * dx + 2 * dx / 3) ∧
      spline_con1 (spline_b (acy_list ct false)) =
        (List.range (m - 1)).map (fun n : ℕ => y0 + (n : ℝ) * dy + dy / 3) ∧
      spline_con2 (spline_b (acy_list ct false)) =
        (List.range (m - 1)).map (fun n : ℕ => y0 + (n : ℝ) * dy + 2 * dy / 3) := by
  have hax : acx_list ct false = linList m x0 dx := by simpa [acx_list] using hx
  have hay : acy_list ct false = linList m y0 dy := by simpa [acy_list] using hy
  rw [hax, hay, spline_b_linList m hm, spline_b_linList m hm,
    spline_con1_linList, spline_con2_linList, spline_con1_linList, spline_con2_linList]
  exact ⟨rfl, rfl, rfl, rfl⟩

/-- Concrete instance of `spline_linear_exact` on `linWitnessCt` (3 anchors on
the line `y = 5x`, spacing `dx = 1`, `dy = 5`). -/
theorem spline_linear_exact_witness :
    3 ≤ 3 ∧ anchors_x linWitnessCt = linList 3 (0 : ℝ) 1 ∧
      anchors_y linWitnessCt = linList 3 (0 : ℝ) 5 ∧
      (spline_con1 (spline_b (acx_list linWitnessCt false)) =
          (List.range 2).map (fun n : ℕ => (0 : ℝ) + (n : ℝ) * 1 + 1 / 3) ∧
        spline_con2 (spline_b (acx_list linWitnessCt false)) =
          (List.range 2).map (fun n : ℕ => (0 : ℝ) + (n : ℝ) * 1 + 2 * 1 / 3) ∧
        spline_con1 (spline_b (acy_list linWitnessCt false)) =
          (List.range 2).map (fun n : ℕ => (0 : ℝ) + (n : ℝ) * 5 + 5 / 3) ∧
        spline_con2 (spline_b (acy_list linWitnessCt false)) =
          (List.range 2).map (fun n : ℕ => (0 : ℝ) + (n : ℝ) * 5 + 2 * 5 / 3)) := by
  have hr : List.range 3 = [0, 1, 2] := rfl
  have hx : anchors_x linWitnessCt = linList 3 (0 : ℝ) 1 := by
    have h1 : anchors_x linWitnessCt = [0, 1, 2] := rfl
    rw [h1]
    simp [linList, hr]
  have hy : anchors_y linWitnessCt = linList 3 (0 : ℝ) 5 := by
    have h1 : anchors_y linWitnessCt = [0, 5, 10] := rfl
    rw [h1]
    simp [linList, hr] <;> norm_num
  exact ⟨by norm_num, hx, hy,
    spline_linear_exact linWitnessCt 3 0 1 0 5 (by norm_num) hx hy⟩

/-- C2: a stroke with fewer than 3 anchor points (fewer than 18 scalars in the
flattened representation) is returned unchanged by `set_bezier_path` — same
scalars, same closed flag — for every settings value. -/
theorem set_bezier_path_small_id (s : SmoothVals) (ct : List ℝ) (closed : Bool)
    (h : ct.length < 18) : set_bezier_path s ct closed = (ct, closed) := by
  unfold set_bezier_path
  rw [if_pos h]

/-- Concrete instance of `set_bezier_path_small_id` on a 1-anchor stroke. -/
theorem set_bezier_path_small_id_witness :
    ([(0 : ℝ), 0, 1, 2, 3, 4] : List ℝ).length < 18 ∧
      set_bezier_path ⟨true, 60, 120⟩ ([(0 : ℝ), 0, 1, 2, 3, 4]) false =
        ([(0 : ℝ), 0, 1, 2, 3, 4], false) :=
  ⟨by norm_num, set_bezier_path_small_id ⟨true, 60, 120⟩ _ false (by norm_num)⟩

/-- C5: with `restrict_to_corners` on and bounds `a < b`, classification under
settings `(angle_min = a, angle_max = b)` (AND rule) is the negation of
classification under settings `(angle_min = b, angle_max = a)` (OR rule) at
every corner measure other than exactly `a` or `b`; at exactly `a` or `b`
both classify the corner as `false`. -/
theorem angle_between_and_or_compl (a b vax vay vbx vby vcx vcy : ℝ) (hab : a < b) :
    (corner_ret vax vay vbx vby vcx vcy ≠ a → corner_ret vax vay vbx vby vcx vcy ≠ b →
        angle_between ⟨true, a, b⟩ vax vay vbx vby vcx vcy =
          !(angle_between ⟨true, b, a⟩ vax vay vbx vby vcx vcy)) ∧
      ((corner_ret vax vay vbx vby vcx vcy = a ∨ corner_ret vax vay vbx vby vcx vcy = b) →
        angle_between ⟨true, a, b⟩ vax vay vbx vby vcx vcy = false ∧
          angle_between ⟨true, b, a⟩ vax vay vbx vby vcx vcy = false) := by
  have h1 : angle_between ⟨true, a, b⟩ vax vay vbx vby vcx vcy =
      decide (corner_ret vax vay vbx vby vcx vcy < b ∧
        corner_ret vax vay vbx vby vcx vcy > a) := by
    unfold angle_between
    rw [if_neg (by simp), if_pos (by exact hab)]
  have h2 : angle_between ⟨true, b, a⟩ vax vay vbx vby vcx vcy =
      decide (corner_ret vax vay vbx vby vcx vcy < a ∨
        corner_ret vax vay vbx vby vcx vcy > b) := by
    unfold angle_between
    rw [if_neg (by simp), if_neg (by exact not_lt.mpr hab.le)]
  constructor
  · intro hna hnb
    rw [h1, h2]
    rcases lt_trichotomy (corner_ret vax vay vbx vby vcx vcy) a with h | h | h
    · simp [h, lt_asymm h]
    · exact (hna h).elim
    · rcases lt_trichotomy (corner_ret vax vay vbx vby vcx vcy) b with h' | h' | h'
      · simp [h, h', lt_asymm h, lt_asymm h']
      · exact (hnb h').elim
      · simp [h', lt_asymm h']
  · intro hab2
    rw [h1, h2]
    rcases hab2 with h | h
    · constructor <;> simp [h, lt_irrefl, not_lt.mpr hab.le]
    · constructor <;> simp [h, lt_irrefl, not_lt.mpr hab.le]

/-- Concrete instance of `angle_between_and_or_compl` at the straight triple
`(0,0), (1,0), (2,0)` and bounds `60 < 120`. -/
theorem angle_between_and_or_compl_witness :
    (60 : ℝ) < 120 ∧
      ((corner_ret 0 0 1 0 2 0 ≠ 60 → corner_ret 0 0 1 0 2 0 ≠ 120 →
          angle_between ⟨true, 60, 120⟩ 0 0 1 0 2 0 =
            !(angle_between ⟨true, 120, 60⟩ 0 0 1 0 2 0)) ∧
        ((corner_ret 0 0 1 0 2 0 = 60 ∨ corner_ret 0 0 1 0 2 0 = 120) →
          angle_between ⟨true, 60, 120⟩ 0 0 1 0 2 0 = false ∧
            angle_between ⟨true, 120, 60⟩ 0 0 1 0 2 0 = false)) :=
  ⟨by norm_num, angle_between_and_or_compl 60 120 0 0 1 0 2 0 (by norm_num)⟩

/-- C8: a degenerate corner triple (`prev = cur` or `cur = next`, i.e. a
zero-length adjacent vector) gives corner measure exactly 180 degrees via the
`atan2(0,0) = 0` convention, and classification still yields a defined
boolean, never an error. -/
theorem corner_ret_degenerate (s : SmoothVals) (vax vay vbx vby vcx vcy : ℝ)
    (h : (vax = vbx ∧ vay = vby) ∨ (vbx = vcx ∧ vby = vcy)) :
    corner_ret vax vay vbx vby vcx vcy = 180 ∧
      (angle_between s vax vay vbx vby vcx vcy = true ∨
        angle_between s vax vay vbx vby vcx vcy = false) := by
  have hzero : atan2 0 0 = 0 := by
    unfold atan2
    norm_num
  constructor
  · rcases h with ⟨h1, h2⟩ | ⟨h1, h2⟩
    · unfold corner_ret
      rw [h1, h2]
      norm_num [hzero, rad_to_deg]
    · unfold corner_ret
      rw [h1, h2]
      norm_num [hzero, rad_to_deg]
  · cases hb : angle_between s vax vay vbx vby vcx vcy
    · exact Or.inr rfl
    · exact Or.inl rfl

/-- Concrete instance of `corner_ret_degenerate` at `prev = cur = (0,0)`,
`next = (5,7)`. -/
theorem corner_ret_degenerate_witness :
    (((0 : ℝ) = 0 ∧ (0 : ℝ) = 0) ∨ ((0 : ℝ) = 5 ∧ (0 : ℝ) = 7)) ∧
      (corner_ret 0 0 0 0 5 7 = 180 ∧
        (angle_between ⟨true, 60, 120⟩ 0 0 0 0 5 7 = true ∨
          angle_between ⟨true, 60, 120⟩ 0 0 0 0 5 7 = false)) :=
  ⟨Or.inl ⟨rfl, rfl⟩, corner_ret_degenerate ⟨true, 60, 120⟩ 0 0 0 0 5 7 (Or.inl ⟨rfl, rfl⟩)⟩

section SolverLength

variable {K : Type*} [LinearOrderedField K]

lemma tri_solve_aux_length :
    ∀ (ds : List K) (cprev dprev : K), (tri_solve_aux cprev dprev ds).length = ds.length := by
  intro ds
  induction ds with
  | nil => intro _ _; rfl
  | cons d rest ih => intro c dp; simp [tri_solve_aux, ih]

lemma triagonal_solve_length (d : List K) : (triagonal_solve d).length = d.length :=
  tri_solve_aux_length d 0 0

lemma spline_rhs_length (ac : List K) : (spline_rhs ac).length = ac.length - 2 := by
  simp [spline_rhs]

lemma anchors_x_length (ct : List K) : (anchors_x ct).length = ct.length / 6 := by
  simp [anchors_x]

lemma anchors_y_length (ct : List K) : (anchors_y ct).length = ct.length / 6 := by
  simp [anchors_y]

end SolverLength

section Frame

lemma getD_set_ne (l : List ℝ) (i j : ℕ) (a : ℝ) (h : i ≠ j) :
    (l.set i a).getD j 0 = l.getD j 0 := by
  simp [List.getD_eq_getElem?_getD, List.getElem?_set_ne h]

lemma getD_set_self (l : List ℝ) (i : ℕ) (a : ℝ) (h : i < l.length) :
    (l.set i a).getD i 0 = a := by
  simp [List.getD_eq_getElem?_getD, List.getElem?_set_self, h]

lemma update_first_length (s : SmoothVals) (ct : List ℝ) (closed : Bool)
    (ax2 ay2 : List ℝ) : (update_first s ct closed ax2 ay2).length = ct.length := by
  unfold update_first
  split_ifs <;> simp

lemma update_stepA_length (s : SmoothVals) (closed : Bool) (a1 b1 ct : List ℝ) (n : ℕ) :
    (update_stepA s closed a1 b1 ct n).length = ct.length := by
  unfold update_stepA
  split_ifs <;> simp

lemma update_stepB_length (s : SmoothVals) (closed : Bool) (len : ℕ)
    (a2 b2 ct : List ℝ) (n : ℕ) :
    (update_stepB s closed len a2 b2 ct n).length = ct.length := by
  unfold update_stepB
  split_ifs <;> simp

lemma update_step_length (s : SmoothVals) (closed : Bool) (len : ℕ)
    (a1 b1 a2 b2 ct : List ℝ) (n : ℕ) :
    (update_step s closed len a1 b1 a2 b2 ct n).length = ct.length := by
  unfold update_step
  rw [update_stepB_length, update_stepA_length]

lemma update_last_length (s : SmoothVals) (ct : List ℝ) (closed : Bool)
    (ax1 ay1 : List ℝ) : (update_last s ct closed ax1 ay1).length = ct.length := by
  unfold update_last
  split_ifs <;> simp

lemma foldl_update_length (s : SmoothVals) (closed : Bool) (len : ℕ)
    (a1 b1 a2 b2 : List ℝ) (ns : List ℕ) (ct : List ℝ) :
    (ns.foldl (update_step s closed len a1 b1 a2 b2) ct).length = ct.length := by
  induction ns generalizing ct with
  | nil => rfl
  | cons n ns ih => rw [List.foldl_cons, ih, update_step_length]

lemma update_first_getD (s : SmoothVals) (ct : List ℝ) (closed : Bool)
    (ax2 ay2 : List ℝ) (j : ℕ) (h0 : j ≠ 0) (h1 : j ≠ 1) :
    (update_first s ct closed ax2 ay2).getD j 0 = ct.getD j 0 := by
  unfold update_first
  split_ifs
  · rw [getD_set_ne _ _ _ _ (Ne.symm h1), getD_set_ne _ _ _ _ (Ne.symm h0)]
  · rfl

lemma update_stepA_getD (s : SmoothVals) (closed : Bool) (a1 b1 ct : List ℝ) (n j : ℕ)
    (h4 : j ≠ n * 6 + 4) (h5 : j ≠ n * 6 + 5) :
    (update_stepA s closed a1 b1 ct n).getD j 0 = ct.getD j 0 := by
  unfold update_stepA
  split_ifs <;>
    first
      | rfl
      | rw [getD_set_ne _ _ _ _ (Ne.symm h5), getD_set_ne _ _ _ _ (Ne.symm h4)]

lemma update_stepB_getD (s : SmoothVals) (closed : Bool) (len : ℕ)
    (a2 b2 ct : List ℝ) (n j : ℕ) (h6 : j ≠ n * 6 + 6) (h7 : j ≠ n * 6 + 7) :
    (update_stepB s closed len a2 b2 ct n).getD j 0 = ct.getD j 0 := by
  unfold update_stepB
  split_ifs <;>
    first
      | rfl
      | rw [getD_set_ne _ _ _ _ (Ne.symm h7), getD_set_ne _ _ _ _ (Ne.symm h6)]

lemma update_step_getD (s : SmoothVals) (closed : Bool) (len : ℕ)
    (a1 b1 a2 b2 ct : List ℝ) (n j : ℕ) (h4 : j ≠ n * 6 + 4) (h5 : j ≠ n * 6 + 5)
    (h6 : j ≠ n * 6 + 6) (h7 : j ≠ n * 6 + 7) :
    (update_step s closed len a1 b1 a2 b2 ct n).getD j 0 = ct.getD j 0 := by
  unfold update_step
  rw [update_stepB_getD _ _ _ _ _ _ _ _ h6 h7, update_stepA_getD _ _ _ _ _ _ _ h4 h5]

lemma update_last_getD (s : SmoothVals) (ct : List ℝ) (closed : Bool)
    (ax1 ay1 : List ℝ) (j : ℕ) (h2 : j ≠ ct.length - 2) (h1 : j ≠ ct.length - 1) :
    (update_last s ct closed ax1 ay1).getD j 0 = ct.getD j 0 := by
  unfold update_last
  split_ifs
  · rw [getD_set_ne _ _ _ _ (Ne.symm h1), getD_set_ne _ _ _ _ (Ne.symm h2)]
  · rfl

lemma foldl_update_getD (s : SmoothVals) (closed : Bool) (len : ℕ)
    (a1 b1 a2 b2 : List ℝ) (ns : List ℕ) (ct : List ℝ) (j : ℕ)
    (h : ∀ n ∈ ns, j ≠ n * 6 + 4 ∧ j ≠ n * 6 + 5 ∧ j ≠ n * 6 + 6 ∧ j ≠ n * 6 + 7) :
    (ns.foldl (update_step s closed len a1 b1 a2 b2) ct).getD j 0 = ct.getD j 0 := by
  induction ns generalizing ct with
  | nil => rfl
  | cons n ns ih =>
    have hn := h n (List.mem_cons_self n ns)
    rw [List.foldl_cons, ih _ fun m hm => h m (List.mem_cons_of_mem _ hm),
      update_step_getD _ _ _ _ _ _ _ _ _ _ hn.1 hn.2.1 hn.2.2.1 hn.2.2.2]

lemma smooth_core_length (s : SmoothVals) (ct : List ℝ) (closed : Bool) :
    (smooth_core s ct closed).length = ct.length := by
  unfold smooth_core
  rw [update_last_length, foldl_update_length, update_first_length]

/-- Any scalar whose index is 2 or 3 modulo 6 — an anchor position — is left
unchanged by the whole update pipeline. -/
lemma smooth_core_getD_anchor (s : SmoothVals) (ct : List ℝ) (closed : Bool)
    (len j : ℕ) (hlen : ct.length = 6 * len) (hmod : j % 6 = 2 ∨ j % 6 = 3) :
    (smooth_core s ct closed).getD j 0 = ct.getD j 0 := by
  unfold smooth_core
  generalize (trim closed (spline_con1 (spline_b (acx_list ct closed)))) = A1
  generalize (trim closed (spline_con1 (spline_b (acy_list ct closed)))) = B1
  generalize (trim closed (spline_con2 (spline_b (acx_list ct closed)))) = A2
  generalize (trim closed (spline_con2 (spline_b (acy_list ct closed)))) = B2
  have hL1 : (update_first s ct closed A2 B2).length = ct.length :=
    update_first_length _ _ _ _ _
  have hL2 : ((List.range (ct.length / 6 - 1)).foldl
      (update_step s closed (ct.length / 6) A1 B1 A2 B2)
      (update_first s ct closed A2 B2)).length = ct.length := by
    rw [foldl_update_length, hL1]
  rw [update_last_getD _ _ _ _ _ _ (by rw [hL2]; omega) (by rw [hL2]; omega),
    foldl_update_getD _ _ _ _ _ _ _ _ _ _
      (fun n _ => ⟨by omega, by omega, by omega, by omega⟩),
    update_first_getD _ _ _ _ _ _ (by omega) (by omega)]

/-- C3: for a stroke of at least 3 anchors, smoothing preserves the number of
scalars, the closed flag, and every anchor position (the scalars at offsets 2
and 3 of each 6-scalar anchor record); only control points may change. -/
theorem set_bezier_path_preserves_anchors (s : SmoothVals) (ct : List ℝ) (closed : Bool)
    (len : ℕ) (hlen : ct.length = 6 * len) (hl3 : 3 ≤ len) :
    (set_bezier_path s ct closed).1.length = ct.length ∧
      (set_bezier_path s ct closed).2 = closed ∧
      anchors_x (set_bezier_path s ct closed).1 = anchors_x ct ∧
      anchors_y (set_bezier_path s ct closed).1 = anchors_y ct := by
  have hng : ¬ (ct.length < 18) := by omega
  have hout : set_bezier_path s ct closed = (smooth_core s ct closed, closed) := by
    unfold set_bezier_path
    rw [if_neg hng]
  rw [hout]
  refine ⟨smooth_core_length s ct closed, rfl, ?_, ?_⟩
  · unfold anchors_x
    rw [smooth_core_length]
    apply List.map_congr_left
    intro n _
    exact smooth_core_getD_anchor s ct closed len _ hlen (Or.inl (by omega))
  · unfold anchors_y
    rw [smooth_core_length]
    apply List.map_congr_left
    intro n _
    exact smooth_core_getD_anchor s ct closed len _ hlen (Or.inr (by omega))

/-- Concrete instance of `set_bezier_path_preserves_anchors` on a 3-anchor
open stroke. -/
theorem set_bezier_path_preserves_anchors_witness :
    (linWitnessCt.length = 6 * 3 ∧ 3 ≤ 3) ∧
      ((set_bezier_path ⟨true, 60, 120⟩ linWitnessCt false).1.length =
          linWitnessCt.length ∧
        (set_bezier_path ⟨true, 60, 120⟩ linWitnessCt false).2 = false ∧
        anchors_x (set_bezier_path ⟨true, 60, 120⟩ linWitnessCt false).1 =
          anchors_x linWitnessCt ∧
        anchors_y (set_bezier_path ⟨true, 60, 120⟩ linWitnessCt false).1 =
          anchors_y linWitnessCt) :=
  ⟨⟨by norm_num [linWitnessCt], by norm_num⟩,
    set_bezier_path_preserves_anchors ⟨true, 60, 120⟩ linWitnessCt false 3
      (by norm_num [linWitnessCt]) (by norm_num)⟩

lemma update_first_open (s : SmoothVals) (ct : List ℝ) (ax2 ay2 : List ℝ) :
    update_first s ct false ax2 ay2 = ct := by
  unfold update_first
  simp

lemma update_last_open (s : SmoothVals) (ct : List ℝ) (ax1 ay1 : List ℝ) :
    update_last s ct false ax1 ay1 = ct := by
  unfold update_last
  simp

/-- C10: for an open stroke, the first anchor's incoming control point
(scalars 0 and 1) and the last anchor's outgoing control point (the last two
scalars) are never modified by smoothing, for every settings value. -/
theorem set_bezier_path_open_exterior_frame (s : SmoothVals) (ct : List ℝ) (len : ℕ)
    (hlen : ct.length = 6 * len) (hl3 : 3 ≤ len) :
    (set_bezier_path s ct false).1.getD 0 0 = ct.getD 0 0 ∧
      (set_bezier_path s ct false).1.getD 1 0 = ct.getD 1 0 ∧
      (set_bezier_path s ct false).1.getD (ct.length - 2) 0 = ct.getD (ct.length - 2) 0 ∧
      (set_bezier_path s ct false).1.getD (ct.length - 1) 0 = ct.getD (ct.length - 1) 0 := by
  have hng : ¬ (ct.length < 18) := by omega
  have hout : set_bezier_path s ct false = (smooth_core s ct false, false) := by
    unfold set_bezier_path
    rw [if_neg hng]
  rw [hout]
  have h6 : ct.length / 6 = len := by
    rw [hlen]
    exact Nat.mul_div_cancel_left len (by norm_num)
  have key : ∀ j, j ≤ 1 ∨ (j = ct.length - 2 ∨ j = ct.length - 1) →
      (smooth_core s ct false).getD j 0 = ct.getD j 0 := by
    intro j hj
    unfold smooth_core
    generalize (trim false (spline_con1 (spline_b (acx_list ct false)))) = A1
    generalize (trim false (spline_con1 (spline_b (acy_list ct false)))) = B1
    generalize (trim false (spline_con2 (spline_b (acx_list ct false)))) = A2
    generalize (trim false (spline_con2 (spline_b (acy_list ct false)))) = B2
    rw [update_last_open, update_first_open]
    apply foldl_update_getD
    intro n hn
    have hn' : n < ct.length / 6 - 1 := List.mem_range.mp hn
    rw [h6] at hn'
    refine ⟨by omega, by omega, by omega, by omega⟩
  exact ⟨key 0 (by omega), key 1 (by omega), key _ (by omega), key _ (by omega)⟩

/-- Concrete instance of `set_bezier_path_open_exterior_frame` on a 3-anchor
open stroke. -/
theorem set_bezier_path_open_exterior_frame_witness :
    (linWitnessCt.length = 6 * 3 ∧ 3 ≤ 3) ∧
      ((set_bezier_path ⟨false, 60, 120⟩ linWitnessCt false).1.getD 0 0 =
          linWitnessCt.getD 0 0 ∧
        (set_bezier_path ⟨false, 60, 120⟩ linWitnessCt false).1.getD 1 0 =
          linWitnessCt.getD 1 0 ∧
        (set_bezier_path ⟨false, 60, 120⟩ linWitnessCt false).1.getD
            (linWitnessCt.length - 2) 0 = linWitnessCt.getD (linWitnessCt.length - 2) 0 ∧
        (set_bezier_path ⟨false, 60, 120⟩ linWitnessCt false).1.getD
            (linWitnessCt.length - 1) 0 = linWitnessCt.getD (linWitnessCt.length - 1) 0) :=
  ⟨⟨by norm_num [linWitnessCt], by norm_num⟩,
    set_bezier_path_open_exterior_frame ⟨false, 60, 120⟩ linWitnessCt 3
      (by norm_num [linWitnessCt]) (by norm_num)⟩

end Frame

lemma trim_open (l : List ℝ) : trim false l = l := rfl

/-- C6: for an open stroke of at least 3 anchors, the two endpoint-corner
control points — the first anchor's outgoing control (scalars 4, 5) and the
last anchor's incoming control (scalars `num_points-6`, `num_points-5`) — are
replaced by the computed smoothed values if and only if `restrict_to_corners`
(`smooth_specified`) is off; no angle test is involved for these two
controls. -/
theorem set_bezier_path_open_endpoint_controls (s : SmoothVals) (ct : List ℝ) (len : ℕ)
    (hlen : ct.length = 6 * len) (hl3 : 3 ≤ len) :
    (set_bezier_path s ct false).1.getD 4 0 =
        (if s.smooth_specified = false then
          (spline_con1 (spline_b (acx_list ct false))).getD 0 0
        else ct.getD 4 0) ∧
      (set_bezier_path s ct false).1.getD 5 0 =
        (if s.smooth_specified = false then
          (spline_con1 (spline_b (acy_list ct false))).getD 0 0
        else ct.getD 5 0) ∧
      (set_bezier_path s ct false).1.getD (ct.length - 6) 0 =
        (if s.smooth_specified = false then
          (spline_con2 (spline_b (acx_list ct false))).getD (len - 2) 0
        else ct.getD (ct.length - 6) 0) ∧
      (set_bezier_path s ct false).1.getD (ct.length - 5) 0 =
        (if s.smooth_specified = false then
          (spline_con2 (spline_b (acy_list ct false))).getD (len - 2) 0
        else ct.getD (ct.length - 5) 0) := by
  have hng : ¬ (ct.length < 18) := by omega
  have hout : set_bezier_path s ct false = (smooth_core s ct false, false) := by
    unfold set_bezier_path
    rw [if_neg hng]
  rw [hout]
  have h6 : ct.length / 6 = len := by
    rw [hlen]
    exact Nat.mul_div_cancel_left len (by norm_num)
  unfold smooth_core
  rw [update_last_open, update_first_open, h6]
  simp only [trim_open]
  set A1 := spline_con1 (spline_b (acx_list ct false)) with hA1
  set B1 := spline_con1 (spline_b (acy_list ct false)) with hB1
  set A2 := spline_con2 (spline_b (acx_list ct false)) with hA2
  set B2 := spline_con2 (spline_b (acy_list ct false)) with hB2
  set F := update_step s false len A1 B1 A2 B2 with hF
  have hsplit1 : List.range (len - 1) = 0 :: (List.range (len - 2)).map Nat.succ := by
    rw [show len - 1 = (len - 2) + 1 by omega, List.range_succ_eq_map]
  have hsplit2 : List.range (len - 1) = List.range (len - 2) ++ [len - 2] := by
    rw [show len - 1 = (len - 2) + 1 by omega, List.range_succ]
  have h04 : (F ct 0).getD 4 0 =
      (if s.smooth_specified = false then A1.getD 0 0 else ct.getD 4 0) := by
    rw [hF]
    unfold update_step
    rw [update_stepB_getD _ _ _ _ _ _ _ _ (by omega) (by omega)]
    unfold update_stepA
    rw [if_pos rfl]
    simp only [Nat.zero_mul, Nat.zero_add]
    rw [if_neg (by simp)]
    cases hs : s.smooth_specified
    · rw [if_pos (by simp [hs])]
      rw [getD_set_ne _ _ _ _ (by omega), getD_set_self _ _ _ (by omega)]
      simp [hs]
    · rw [if_neg (by simp [hs])]
      simp [hs]
  have h05 : (F ct 0).getD 5 0 =
      (if s.smooth_specified = false then B1.getD 0 0 else ct.getD 5 0) := by
    rw [hF]
    unfold update_step
    rw [update_stepB_getD _ _ _ _ _ _ _ _ (by omega) (by omega)]
    unfold update_stepA
    rw [if_pos rfl]
    simp only [Nat.zero_mul, Nat.zero_add]
    rw [if_neg (by simp)]
    cases hs : s.smooth_specified
    · rw [if_pos (by simp [hs])]
      rw [getD_set_self _ _ _ (by rw [List.length_set]; omega)]
      simp [hs]
    · rw [if_neg (by simp [hs])]
      simp [hs]
  have hrest45 : ∀ (cc : List ℝ) (j : ℕ), j = 4 ∨ j = 5 →
      ((((List.range (len - 2)).map Nat.succ).foldl F cc)).getD j 0 = cc.getD j 0 := by
    intro cc j hj
    rw [hF]
    apply foldl_update_getD
    intro n hn
    obtain ⟨m, _, rfl⟩ := List.mem_map.mp hn
    refine ⟨by omega, by omega, by omega, by omega⟩
  have hlast6 : ∀ mid : List ℝ, mid.length = ct.length →
      (F mid (len - 2)).getD (ct.length - 6) 0 =
        (if s.smooth_specified = false then A2.getD (len - 2) 0
         else mid.getD (ct.length - 6) 0) := by
    intro mid hmlen
    rw [hF]
    unfold update_step
    have hAlen : (update_stepA s false A1 B1 mid (len - 2)).length = ct.length := by
      rw [update_stepA_length, hmlen]
    have hA6 : (update_stepA s false A1 B1 mid (len - 2)).getD (ct.length - 6) 0 =
        mid.getD (ct.length - 6) 0 :=
      update_stepA_getD _ _ _ _ _ _ _ (by omega) (by omega)
    unfold update_stepB
    rw [if_pos rfl, if_neg (by simp)]
    cases hs : s.smooth_specified
    · rw [if_pos (by simp [hs])]
      have e6 : (len - 2) * 6 + 6 = ct.length - 6 := by omega
      have e7 : (len - 2) * 6 + 7 = ct.length - 5 := by omega
      rw [e6, e7]
      rw [getD_set_ne _ _ _ _ (by omega), getD_set_self _ _ _ (by rw [hAlen]; omega)]
      simp [hs]
    · rw [if_neg (by simp [hs])]
      rw [hA6]
      simp [hs]
  have hlast5 : ∀ mid : List ℝ, mid.length = ct.length →
      (F mid (len - 2)).getD (ct.length - 5) 0 =
        (if s.smooth_specified = false then B2.getD (len - 2) 0
         else mid.getD (ct.length - 5) 0) := by
    intro mid hmlen
    rw [hF]
    unfold update_step
    have hAlen : (update_stepA s false A1 B1 mid (len - 2)).length = ct.length := by
      rw [update_stepA_length, hmlen]
    have hA5 : (update_stepA s false A1 B1 mid (len - 2)).getD (ct.length - 5) 0 =
        mid.getD (ct.length - 5) 0 :=
      update_stepA_getD _ _ _ _ _ _ _ (by omega) (by omega)
    unfold update_stepB
    rw [if_pos rfl, if_neg (by simp)]
    cases hs : s.smooth_specified
    · rw [if_pos (by simp [hs])]
      have e6 : (len - 2) * 6 + 6 = ct.length - 6 := by omega
      have e7 : (len - 2) * 6 + 7 = ct.length - 5 := by omega
      rw [e6, e7]
      rw [getD_set_self _ _ _ (by rw [List.length_set, hAlen]; omega)]
      simp [hs]
    · rw [if_neg (by simp [hs])]
      rw [hA5]
      simp [hs]
  have hmidlen : ((List.range (len - 2)).foldl F ct).length = ct.length := by
    rw [hF]
    exact foldl_update_length _ _ _ _ _ _ _ _ _
  have hmidpres : ∀ j : ℕ, j = ct.length - 6 ∨ j = ct.length - 5 →
      ((List.range (len - 2)).foldl F ct).getD j 0 = ct.getD j 0 := by
    intro j hj
    rw [hF]
    apply foldl_update_getD
    intro n hn
    have hn' := List.mem_range.mp hn
    refine ⟨by omega, by omega, by omega, by omega⟩
  refine ⟨?_, ?_, ?_, ?_⟩
  · rw [hsplit1, List.foldl_cons, hrest45 _ 4 (Or.inl rfl), h04]
  · rw [hsplit1, List.foldl_cons, hrest45 _ 5 (Or.inr rfl), h05]
  · rw [hsplit2, List.foldl_append]
    simp only [List.foldl_cons, List.foldl_nil]
    rw [hlast6 _ hmidlen, hmidpres _ (Or.inl rfl)]
  · rw [hsplit2, List.foldl_append]
    simp only [List.foldl_cons, List.foldl_nil]
    rw [hlast5 _ hmidlen, hmidpres _ (Or.inr rfl)]

/-- Concrete instance of `set_bezier_path_open_endpoint_controls` on a
3-anchor open stroke with smoothing unrestricted. -/
theorem set_bezier_path_open_endpoint_controls_witness :
    (linWitnessCt.length = 6 * 3 ∧ 3 ≤ 3) ∧
      ((set_bezier_path ⟨false, 60, 120⟩ linWitnessCt false).1.getD 4 0 =
          (if (⟨false, 60, 120⟩ : SmoothVals).smooth_specified = false then
            (spline_con1 (spline_b (acx_list linWitnessCt false))).getD 0 0
          else linWitnessCt.getD 4 0) ∧
        (set_bezier_path ⟨false, 60, 120⟩ linWitnessCt false).1.getD 5 0 =
          (if (⟨false, 60, 120⟩ : SmoothVals).smooth_specified = false then
            (spline_con1 (spline_b (acy_list linWitnessCt false))).getD 0 0
          else linWitnessCt.getD 5 0) ∧
        (set_bezier_path ⟨false, 60, 120⟩ linWitnessCt false).1.getD
            (linWitnessCt.length - 6) 0 =
          (if (⟨false, 60, 120⟩ : SmoothVals).smooth_specified = false then
            (spline_con2 (spline_b (acx_list linWitnessCt false))).getD (3 - 2) 0
          else linWitnessCt.getD (linWitnessCt.length - 6) 0) ∧
        (set_bezier_path ⟨false, 60, 120⟩ linWitnessCt false).1.getD
            (linWitnessCt.length - 5) 0 =
          (if (⟨false, 60, 120⟩ : SmoothVals).smooth_specified = false then
            (spline_con2 (spline_b (acy_list linWitnessCt false))).getD (3 - 2) 0
          else linWitnessCt.getD (linWitnessCt.length - 5) 0)) :=
  ⟨⟨by norm_num [linWitnessCt], by norm_num⟩,
    set_bezier_path_open_endpoint_controls ⟨false, 60, 120⟩ linWitnessCt 3
      (by norm_num [linWitnessCt]) (by norm_num)⟩

/-- C9: under the `num_points >= 18` guard (at least 3 anchors, open or
closed), the axis sequences handed to the spline stage have length at least
3, the right-hand side built for `triagonal_solve` has exactly
`acx.length - 2` entries, the solver is bypassed (closed form) exactly in the
single-interior-anchor case `acx.length - 2 = 1` and otherwise receives a
right-hand side of length at least 2, and the solver produces exactly as many
entries as it receives — so all solver and right-hand-side indices stay in
bounds. -/
theorem solver_call_guard (ct : List ℝ) (closed : Bool) (len : ℕ)
    (hlen : ct.length = 6 * len) (hl3 : 3 ≤ len) :
    3 ≤ (acx_list ct closed).length ∧ 3 ≤ (acy_list ct closed).length ∧
      (spline_rhs (acx_list ct closed)).length = (acx_list ct closed).length - 2 ∧
      (spline_rhs (acy_list ct closed)).length = (acy_list ct closed).length - 2 ∧
      ((acx_list ct closed).length - 2 = 1 ∨
        2 ≤ (spline_rhs (acx_list ct closed)).length) ∧
      ((acy_list ct closed).length - 2 = 1 ∨
        2 ≤ (spline_rhs (acy_list ct closed)).length) ∧
      (triagonal_solve (spline_rhs (acx_list ct closed))).length =
        (acx_list ct closed).length - 2 ∧
      (triagonal_solve (spline_rhs (acy_list ct closed))).length =
        (acy_list ct closed).length - 2 := by
  have h6 : ct.length / 6 = len := by
    rw [hlen]
    exact Nat.mul_div_cancel_left len (by norm_num)
  have hax : 3 ≤ (acx_list ct closed).length := by
    cases closed <;> simp [acx_list, anchors_x_length, h6] <;> omega
  have hay : 3 ≤ (acy_list ct closed).length := by
    cases closed <;> simp [acy_list, anchors_y_length, h6] <;> omega
  refine ⟨hax, hay, spline_rhs_length _, spline_rhs_length _, ?_, ?_, ?_, ?_⟩
  · rw [spline_rhs_length]
    omega
  · rw [spline_rhs_length]
    omega
  · rw [triagonal_solve_length, spline_rhs_length]
  · rw [triagonal_solve_length, spline_rhs_length]

/-- Concrete instance of `solver_call_guard` on a 3-anchor open stroke. -/
theorem solver_call_guard_witness :
    (linWitnessCt.length = 6 * 3 ∧ 3 ≤ 3) ∧
      (3 ≤ (acx_list linWitnessCt false).length ∧
        3 ≤ (acy_list linWitnessCt false).length ∧
        (spline_rhs (acx_list linWitnessCt false)).length =
          (acx_list linWitnessCt false).length - 2 ∧
        (spline_rhs (acy_list linWitnessCt false)).length =
          (acy_list linWitnessCt false).length - 2 ∧
        ((acx_list linWitnessCt false).length - 2 = 1 ∨
          2 ≤ (spline_rhs (acx_list linWitnessCt false)).length) ∧
        ((acy_list linWitnessCt false).length - 2 = 1 ∨
          2 ≤ (spline_rhs (acy_list linWitnessCt false)).length) ∧
        (triagonal_solve (spline_rhs (acx_list linWitnessCt false))).length =
          (acx_list linWitnessCt false).length - 2 ∧
        (triagonal_solve (spline_rhs (acy_list linWitnessCt false))).length =
          (acy_list linWitnessCt false).length - 2) :=
  ⟨⟨by norm_num [linWitnessCt], by norm_num⟩,
    solver_call_guard linWitnessCt false 3 (by norm_num [linWitnessCt]) (by norm_num)⟩

lemma angle_between_smooth_off (s : SmoothVals) (hs : s.smooth_specified = false)
    (vax vay vbx vby vcx vcy : ℝ) :
    angle_between s vax vay vbx vby vcx vcy = true := by
  unfold angle_between
  rw [if_pos hs]

/-- For a closed 3-anchor stroke with the angle restriction off, the output
scalars 4 and 10 (the outgoing controls of anchors 0 and 1) are the first two
trimmed `con1` values of the x-axis spline fit. -/
lemma smooth_core_closed_off_4_10 (s : SmoothVals) (ct : List ℝ)
    (hlen : ct.length = 18) (hs : s.smooth_specified = false) :
    (smooth_core s ct true).getD 4 0 =
        (trim true (spline_con1 (spline_b (acx_list ct true)))).getD 0 0 ∧
      (smooth_core s ct true).getD 10 0 =
        (trim true (spline_con1 (spline_b (acx_list ct true)))).getD 1 0 := by
  have hang : ∀ a b c d e f : ℝ, angle_between s a b c d e f = true :=
    angle_between_smooth_off s hs
  unfold smooth_core
  have h6 : ct.length / 6 = 3 := by rw [hlen]
  rw [h6]
  set A1 := trim true (spline_con1 (spline_b (acx_list ct true))) with hA1
  set B1 := trim true (spline_con1 (spline_b (acy_list ct true))) with hB1
  set A2 := trim true (spline_con2 (spline_b (acx_list ct true))) with hA2
  set B2 := trim true (spline_con2 (spline_b (acy_list ct true))) with hB2
  set F := update_step s true 3 A1 B1 A2 B2 with hF
  have hr2 : List.range (3 - 1) = [0, 1] := rfl
  rw [hr2]
  simp only [List.foldl_cons, List.foldl_nil]
  set ct0 := update_first s ct true A2 B2 with hct0
  have hl0 : ct0.length = ct.length := update_first_length _ _ _ _ _
  have h04 : (F ct0 0).getD 4 0 = A1.getD 0 0 := by
    rw [hF]
    unfold update_step
    rw [update_stepB_getD _ _ _ _ _ _ _ _ (by omega) (by omega)]
    unfold update_stepA
    rw [if_pos rfl]
    simp only [Nat.zero_mul, Nat.zero_add]
    rw [if_pos (by simp [hang])]
    rw [getD_set_ne _ _ _ _ (by omega), getD_set_self _ _ _ (by rw [hl0]; omega)]
  have h0pres10 : (F ct0 0).getD 10 0 = ct0.getD 10 0 := by
    rw [hF]
    exact update_step_getD _ _ _ _ _ _ _ _ _ _ (by omega) (by omega) (by omega) (by omega)
  have hl1 : (F ct0 0).length = ct.length := by
    rw [hF, update_step_length, hl0]
  have hstep1_10 : ∀ cc : List ℝ, cc.length = ct.length → (F cc 1).getD 10 0 = A1.getD 1 0 := by
    intro cc hcc
    rw [hF]
    unfold update_step
    rw [update_stepB_getD _ _ _ _ _ _ _ _ (by omega) (by omega)]
    unfold update_stepA
    rw [if_neg (by omega)]
    rw [if_pos (by simp [hang])]
    rw [show (1 * 6 + 4 : ℕ) = 10 from rfl, show (1 * 6 + 5 : ℕ) = 11 from rfl]
    rw [getD_set_ne _ _ _ _ (by omega), getD_set_self _ _ _ (by rw [hcc]; omega)]
  have hstep1_4 : (F (F ct0 0) 1).getD 4 0 = (F ct0 0).getD 4 0 := by
    rw [hF]
    exact update_step_getD _ _ _ _ _ _ _ _ _ _ (by omega) (by omega) (by omega) (by omega)
  have hl2 : (F (F ct0 0) 1).length = ct.length := by
    rw [hF, update_step_length]
    exact hl1
  constructor
  · rw [update_last_getD _ _ _ _ _ _ (by rw [hl2, hlen]; omega) (by rw [hl2, hlen]; omega),
      hstep1_4, h04]
  · rw [update_last_getD _ _ _ _ _ _ (by rw [hl2, hlen]; omega) (by rw [hl2, hlen]; omega),
      hstep1_10 _ hl1]

lemma cex_rot_value :
    (trim true (spline_con1 (spline_b (acx_list cexRot true)))).getD 0 0 = 216 / 19 := by
  have hacx : acx_list cexRot true = ([0, 12, 0, 0, 12, 0] : List ℝ) := rfl
  have hrhs : spline_rhs ([0, 12, 0, 0, 12, 0] : List ℝ) = [72, 0, 0, 72] := by
    have h : spline_rhs ([0, 12, 0, 0, 12, 0] : List ℝ) =
        [6 * 12 - 0, 6 * 0, 6 * 0, 6 * 12 - 0] := rfl
    rw [h]
    norm_num
  have hsol : triagonal_solve ([72, 0, 0, 72] : List ℝ) =
      [360 / 19, -72 / 19, -72 / 19, 360 / 19] := by
    norm_num [triagonal_solve, tri_solve_aux]
  have hb : spline_b ([0, 12, 0, 0, 12, 0] : List ℝ) =
      [0, 360 / 19, -72 / 19, -72 / 19, 360 / 19, 0] := by
    have e1 : ([0, 12, 0, 0, 12, 0] : List ℝ).length = 6 := rfl
    simp only [spline_b, e1]
    rw [hrhs, hsol]
    norm_num
  have hcon : spline_con1 ([0, 360 / 19, -72 / 19, -72 / 19, 360 / 19, 0] : List ℝ) =
      [2 * 0 / 3 + (360 / 19) / 3, 2 * (360 / 19) / 3 + (-72 / 19) / 3,
        2 * (-72 / 19) / 3 + (-72 / 19) / 3, 2 * (-72 / 19) / 3 + (360 / 19) / 3,
        2 * (360 / 19) / 3 + 0 / 3] := rfl
  rw [hacx, hb, hcon]
  norm_num [trim]

lemma cex_orig_value :
    (trim true (spline_con1 (spline_b (acx_list cexCt true)))).getD 1 0 = 2524 / 209 := by
  have hacx : acx_list cexCt true = ([0, 0, 12, 0, 0, 12] : List ℝ) := rfl
  have hrhs : spline_rhs ([0, 0, 12, 0, 0, 12] : List ℝ) = [0, 72, 0, -12] := by
    have h : spline_rhs ([0, 0, 12, 0, 0, 12] : List ℝ) =
        [6 * 0 - 0, 6 * 12, 6 * 0, 6 * 0 - 12] := rfl
    rw [h]
    norm_num
  have hsol : triagonal_solve ([0, 72, 0, -12] : List ℝ) =
      [-1068 / 209, 4272 / 209, -972 / 209, -384 / 209] := by
    norm_num [triagonal_solve, tri_solve_aux]
  have hb : spline_b ([0, 0, 12, 0, 0, 12] : List ℝ) =
      [0, -1068 / 209, 4272 / 209, -972 / 209, -384 / 209, 12] := by
    have e1 : ([0, 0, 12, 0, 0, 12] : List ℝ).length = 6 := rfl
    simp only [spline_b, e1]
    rw [hrhs, hsol]
    norm_num
  have hcon : spline_con1
      ([0, -1068 / 209, 4272 / 209, -972 / 209, -384 / 209, 12] : List ℝ) =
      [2 * 0 / 3 + (-1068 / 209) / 3, 2 * (-1068 / 209) / 3 + (4272 / 209) / 3,
        2 * (4272 / 209) / 3 + (-972 / 209) / 3, 2 * (-972 / 209) / 3 + (-384 / 209) / 3,
        2 * (-384 / 209) / 3 + 12 / 3] := rfl
  rw [hacx, hb, hcon]
  norm_num [trim]

lemma rot_getD18 (l : List ℝ) (hl : l.length = 18) :
    (l.drop 6 ++ l.take 6).getD 4 0 = l.getD 10 0 := by
  rw [List.getD_eq_getElem _ _ (by simp [hl]), List.getD_eq_getElem _ _ (by omega)]
  rw [List.getElem_append_left (by simp [hl])]
  simp [hl]

/-- C4 counterexample: with smoothing unrestricted, smoothing the closed
triangle stroke `cexCt` after rotating its anchor list by one position and
rotating the smoothed `cexCt` by one position give control points that differ
by more than `1/100` (here exactly `148/209 ≈ 0.708` at scalar index 4) —
far beyond floating-point tolerance, so the two runs do not produce the same
geometric curve. -/
theorem set_bezier_path_rotation_cex :
    (1 : ℝ) / 100 <
      |(set_bezier_path ⟨false, 60, 120⟩ (cexCt.drop 6 ++ cexCt.take 6) true).1.getD 4 0 -
        ((set_bezier_path ⟨false, 60, 120⟩ cexCt true).1.drop 6 ++
          (set_bezier_path ⟨false, 60, 120⟩ cexCt true).1.take 6).getD 4 0| := by
  have hlen : cexCt.length = 18 := rfl
  have hlenR : (cexCt.drop 6 ++ cexCt.take 6).length = 18 := rfl
  have hout1 : set_bezier_path ⟨false, 60, 120⟩ (cexCt.drop 6 ++ cexCt.take 6) true =
      (smooth_core ⟨false, 60, 120⟩ (cexCt.drop 6 ++ cexCt.take 6) true, true) := by
    unfold set_bezier_path
    rw [if_neg (by rw [hlenR]; omega)]
  have hout2 : set_bezier_path ⟨false, 60, 120⟩ cexCt true =
      (smooth_core ⟨false, 60, 120⟩ cexCt true, true) := by
    unfold set_bezier_path
    rw [if_neg (by rw [hlen]; omega)]
  have hlc : (smooth_core ⟨false, 60, 120⟩ cexCt true).length = 18 := by
    rw [smooth_core_length, hlen]
  rw [hout1, hout2]
  rw [rot_getD18 _ hlc]
  have h1 := (smooth_core_closed_off_4_10 ⟨false, 60, 120⟩ (cexCt.drop 6 ++ cexCt.take 6)
    hlenR rfl).1
  have h2 := (smooth_core_closed_off_4_10 ⟨false, 60, 120⟩ cexCt hlen rfl).2
  rw [h1, h2]
  have hv1 : (trim true (spline_con1 (spline_b
      (acx_list (cexCt.drop 6 ++ cexCt.take 6) true)))).getD 0 0 = 216 / 19 := cex_rot_value
  rw [hv1, cex_orig_value]
  have hd : (216 : ℝ) / 19 - 2524 / 209 = -(148 / 209) := by norm_num
  rw [hd, abs_neg, abs_of_pos (by norm_num)]
  norm_num

/-- C4 (amended): for a closed stroke, the wrap corner at anchor 0 is
classified with previous = anchor `n-1` and next = anchor 1 — the first
anchor's incoming control (scalars 0 and 1) is replaced by the last trimmed
`con2` value exactly when `angle_between` passes on the triple
(last anchor, anchor 0, anchor 1).  (Rotation equivariance itself is false;
see the counterexample.) -/
theorem set_bezier_path_closed_wrap_first (s : SmoothVals) (ct : List ℝ) (len : ℕ)
    (hlen : ct.length = 6 * len) (hl3 : 3 ≤ len) :
    (set_bezier_path s ct true).1.getD 0 0 =
        (if angle_between s (ct.getD (ct.length - 4) 0) (ct.getD (ct.length - 3) 0)
            (ct.getD 2 0) (ct.getD 3 0) (ct.getD 8 0) (ct.getD 9 0) then
          (trim true (spline_con2 (spline_b (acx_list ct true)))).getD
            ((trim true (spline_con2 (spline_b (acx_list ct true)))).length - 1) 0
        else ct.getD 0 0) ∧
      (set_bezier_path s ct true).1.getD 1 0 =
        (if angle_between s (ct.getD (ct.length - 4) 0) (ct.getD (ct.length - 3) 0)
            (ct.getD 2 0) (ct.getD 3 0) (ct.getD 8 0) (ct.getD 9 0) then
          (trim true (spline_con2 (spline_b (acy_list ct true)))).getD
            ((trim true (spline_con2 (spline_b (acy_list ct true)))).length - 1) 0
        else ct.getD 1 0) := by
  have hng : ¬ (ct.length < 18) := by omega
  have hout : set_bezier_path s ct true = (smooth_core s ct true, true) := by
    unfold set_bezier_path
    rw [if_neg hng]
  rw [hout]
  have h6 : ct.length / 6 = len := by
    rw [hlen]
    exact Nat.mul_div_cancel_left len (by norm_num)
  unfold smooth_core
  rw [h6]
  set A1 := trim true (spline_con1 (spline_b (acx_list ct true))) with hA1
  set B1 := trim true (spline_con1 (spline_b (acy_list ct true))) with hB1
  set A2 := trim true (spline_con2 (spline_b (acx_list ct true))) with hA2
  set B2 := trim true (spline_con2 (spline_b (acy_list ct true))) with hB2
  set F := update_step s true len A1 B1 A2 B2 with hF
  have hf : (update_first s ct true A2 B2).getD 0 0 =
        (if angle_between s (ct.getD (ct.length - 4) 0) (ct.getD (ct.length - 3) 0)
            (ct.getD 2 0) (ct.getD 3 0) (ct.getD 8 0) (ct.getD 9 0) then
          A2.getD (A2.length - 1) 0 else ct.getD 0 0) ∧
      (update_first s ct true A2 B2).getD 1 0 =
        (if angle_between s (ct.getD (ct.length - 4) 0) (ct.getD (ct.length - 3) 0)
            (ct.getD 2 0) (ct.getD 3 0) (ct.getD 8 0) (ct.getD 9 0) then
          B2.getD (B2.length - 1) 0 else ct.getD 1 0) := by
    unfold update_first
    simp only [Bool.true_and]
    split_ifs with hang
    · constructor
      · rw [getD_set_ne _ _ _ _ (by omega), getD_set_self _ _ _ (by omega)]
      · rw [getD_set_self _ _ _ (by rw [List.length_set]; omega)]
    · exact ⟨rfl, rfl⟩
  have hpres : ∀ (j : ℕ), j ≤ 1 →
      ((List.range (len - 1)).foldl F (update_first s ct true A2 B2)).getD j 0 =
        (update_first s ct true A2 B2).getD j 0 := by
    intro j hj
    rw [hF]
    apply foldl_update_getD
    intro n _
    exact ⟨by omega, by omega, by omega, by omega⟩
  have hflen : ((List.range (len - 1)).foldl F (update_first s ct true A2 B2)).length =
      ct.length := by
    rw [hF, foldl_update_length, update_first_length]
  constructor
  · rw [update_last_getD _ _ _ _ _ _ (by rw [hflen]; omega) (by rw [hflen]; omega),
      hpres 0 (by omega), hf.1]
  · rw [update_last_getD _ _ _ _ _ _ (by rw [hflen]; omega) (by rw [hflen]; omega),
      hpres 1 (by omega), hf.2]

/-- Concrete instance of `set_bezier_path_closed_wrap_first` on the closed
triangle stroke. -/
theorem set_bezier_path_closed_wrap_first_witness :
    (cexCt.length = 6 * 3 ∧ 3 ≤ 3) ∧
      ((set_bezier_path ⟨true, 60, 120⟩ cexCt true).1.getD 0 0 =
          (if angle_between ⟨true, 60, 120⟩ (cexCt.getD (cexCt.length - 4) 0)
              (cexCt.getD (cexCt.length - 3) 0) (cexCt.getD 2 0) (cexCt.getD 3 0)
              (cexCt.getD 8 0) (cexCt.getD 9 0) then
            (trim true (spline_con2 (spline_b (acx_list cexCt true)))).getD
              ((trim true (spline_con2 (spline_b (acx_list cexCt true)))).length - 1) 0
          else cexCt.getD 0 0) ∧
        (set_bezier_path ⟨true, 60, 120⟩ cexCt true).1.getD 1 0 =
          (if angle_between ⟨true, 60, 120⟩ (cexCt.getD (cexCt.length - 4) 0)
              (cexCt.getD (cexCt.length - 3) 0) (cexCt.getD 2 0) (cexCt.getD 3 0)
              (cexCt.getD 8 0) (cexCt.getD 9 0) then
            (trim true (spline_con2 (spline_b (acy_list cexCt true)))).getD
              ((trim true (spline_con2 (spline_b (acy_list cexCt true)))).length - 1) 0
          else cexCt.getD 1 0)) :=
  ⟨⟨by norm_num [cexCt], by norm_num⟩,
    set_bezier_path_closed_wrap_first ⟨true, 60, 120⟩ cexCt 3
      (by norm_num [cexCt]) (by norm_num)⟩

end SmoothPath
